import Mathlib

/-!
Verification development for the streaming response relay of
`demo_mlflow_agent_tracing` (file `src/demo_mlflow_agent_tracing/app.py`,
with the tracing middleware from `src/demo_mlflow_agent_tracing/agent.py`).

The relay (`stream_agent_response`) drains one finite, ordered sequence of
`(token, metadata)` events produced by the agent graph for one user turn and
projects it into UI side effects: Display Messages (created lazily, streamed
into, finalized on node change or stream end), "thinking" steps, tool-response
steps, and tool-call steps (with chunked tool-call aggregation drawing further
events from the same shared sequence).

The embedding is shallow: the async generator becomes a `List Event`, each
helper consumes a prefix of the list and returns the remainder, and UI side
effects become an explicit ordered trace of `UIAction`s.  The interpreter is
written with a fuel argument (provably sufficient, and irrelevant above the
list length) so that it is structurally recursive and concrete runs evaluate
inside the kernel.
-/

namespace AgentRelay

/-! ## A JSON value type and a model of Python `json.loads`

The app parses accumulated tool-call argument fragments with `json.loads`
(app.py line 116) and re-serializes with `json.dumps`.  `json.loads` is
external standard-library code; we model the subset of JSON it is applied to
here: objects, arrays, strings, integers, booleans and null (no floats, no
unicode escapes).  On anything else the model returns `none`, standing for a
raised `JSONDecodeError`. -/

inductive Json where
  | null
  | bool (b : Bool)
  | num (n : Int)
  | str (s : String)
  | arr (elems : List Json)
  | obj (fields : List (String × Json))
deriving Repr

/-- Skip JSON whitespace. -/
def skipWs : List Char → List Char
  | c :: rest => if c = ' ' ∨ c = '\n' ∨ c = '\t' ∨ c = '\r' then skipWs rest else c :: rest
  | [] => []

/-- Parse the characters of a JSON string literal after the opening quote,
returning the decoded characters and the remainder after the closing quote.
Escapes are modelled for the common cases (a backslash followed by `n`, `t`,
`r` maps to the control character; any other escaped character maps to
itself, which covers `\"`, `\\` and `/`). -/
def parseStrChars : List Char → Option (List Char × List Char)
  | [] => none
  | '"' :: rest => some ([], rest)
  | '\\' :: c :: rest =>
      let esc := if c = 'n' then '\n' else if c = 't' then '\t' else if c = 'r' then '\r' else c
      (parseStrChars rest).map (fun p => (esc :: p.1, p.2))
  | c :: rest => (parseStrChars rest).map (fun p => (c :: p.1, p.2))

/-- Parse a run of decimal digits, accumulating into `acc`. -/
def parseDigits : List Char → Nat → Nat × List Char
  | c :: rest, acc =>
      if c.isDigit then parseDigits rest (acc * 10 + (c.toNat - '0'.toNat)) else (acc, c :: rest)
  | [], acc => (acc, [])

/-- Parse the items of a nonempty JSON array (positioned after `[` or after a
comma), given a parser `pv` for one value.  The fuel bounds the number of
commas. -/
def parseArrItems (pv : List Char → Option (Json × List Char)) :
    Nat → List Char → Option (List Json × List Char)
  | fuel, s =>
    match pv s with
    | none => none
    | some (j, rest) =>
      match skipWs rest with
      | ',' :: rest2 =>
        match fuel with
        | 0 => none
        | f + 1 => (parseArrItems pv f rest2).map (fun p => (j :: p.1, p.2))
      | ']' :: rest2 => some ([j], rest2)
      | _ => none

/-- Parse the fields of a nonempty JSON object (positioned after `{` or after
a comma), given a parser `pv` for one value. -/
def parseObjItems (pv : List Char → Option (Json × List Char)) :
    Nat → List Char → Option (List (String × Json) × List Char)
  | fuel, s =>
    match skipWs s with
    | '"' :: rest =>
      match parseStrChars rest with
      | none => none
      | some (key, rest1) =>
        match skipWs rest1 with
        | ':' :: rest2 =>
          match pv rest2 with
          | none => none
          | some (j, rest3) =>
            match skipWs rest3 with
            | ',' :: rest4 =>
              match fuel with
              | 0 => none
              | f + 1 =>
                (parseObjItems pv f rest4).map (fun p => ((String.mk key, j) :: p.1, p.2))
            | '}' :: rest4 => some ([(String.mk key, j)], rest4)
            | _ => none
        | _ => none
    | _ => none

/-- Parse one JSON value.  The fuel bounds the nesting depth and element
counts; `json_loads` supplies more fuel than the input length, which is always
enough because every recursive call follows at least one consumed character. -/
def parseVal : Nat → List Char → Option (Json × List Char)
  | 0, _ => none
  | fuel + 1, s =>
    match skipWs s with
    | [] => none
    | c :: rest =>
      if c = '"' then
        (parseStrChars rest).map (fun p => (Json.str (String.mk p.1), p.2))
      else if c = '{' then
        match skipWs rest with
        | '}' :: rest2 => some (Json.obj [], rest2)
        | _ => (parseObjItems (parseVal fuel) fuel rest).map (fun p => (Json.obj p.1, p.2))
      else if c = '[' then
        match skipWs rest with
        | ']' :: rest2 => some (Json.arr [], rest2)
        | _ => (parseArrItems (parseVal fuel) fuel rest).map (fun p => (Json.arr p.1, p.2))
      else if c = 't' then
        match rest with
        | 'r' :: 'u' :: 'e' :: r2 => some (Json.bool true, r2)
        | _ => none
      else if c = 'f' then
        match rest with
        | 'a' :: 'l' :: 's' :: 'e' :: r2 => some (Json.bool false, r2)
        | _ => none
      else if c = 'n' then
        match rest with
        | 'u' :: 'l' :: 'l' :: r2 => some (Json.null, r2)
        | _ => none
      else if c = '-' then
        match rest with
        | d :: _ =>
          if d.isDigit then
            let p := parseDigits rest 0
            some (Json.num (-(p.1 : Int)), p.2)
          else none
        | [] => none
      else if c.isDigit then
        let p := parseDigits (c :: rest) 0
        some (Json.num (p.1 : Int), p.2)
      else none

/-- Model of Python `json.loads`: parse a complete JSON document; `none`
models a raised `json.JSONDecodeError`. -/
def json_loads (s : String) : Option Json :=
  match parseVal (s.length + 1) s.data with
  | some (j, rest) => if (skipWs rest).isEmpty then some j else none
  | none => none

/-! ## Tokens and events

A streamed event is a `(token, metadata)` pair.  The token is a langchain
`AIMessageChunk`; the code reads its `content` (a string), `tool_calls`
(a list of completed tool-call dicts `{name, args, id}`) and
`tool_call_chunks` (a list of partial dicts `{name, args, id, index}` whose
string fields arrive as fragments).  `metadata["langgraph_node"]` names the
graph node that produced the event.  Python truthiness of these attributes is
non-emptiness (the attributes always exist on an `AIMessageChunk`, so the
`hasattr` guards in the source are always true). -/

/-- One entry of `AIMessageChunk.tool_call_chunks`: every field is optional
and the string fields are fragments to be concatenated across chunks. -/
structure ToolCallChunk where
  name : Option String
  args : Option String
  id : Option String
  index : Option Nat
deriving Repr, DecidableEq

/-- The `args` field of a completed tool call.  In langchain it is normally an
already-parsed dict, but the rendering code checks `isinstance(tool["args"], str)`
(app.py line 116), so the model keeps both shapes. -/
inductive ArgsVal where
  | ofJson (j : Json)
  | ofStr (s : String)
deriving Repr

/-- One entry of `AIMessageChunk.tool_calls` (a completed tool call). -/
structure ToolCall where
  name : String
  args : ArgsVal
  id : Option String
deriving Repr

/-- The fields of a streamed `AIMessageChunk` that the relay reads. -/
structure AIMessageChunk where
  content : String
  tool_calls : List ToolCall
  tool_call_chunks : List ToolCallChunk
deriving Repr

/-- One `(token, metadata)` event; `langgraph_node` is
`metadata["langgraph_node"]`. -/
structure Event where
  token : AIMessageChunk
  langgraph_node : String
deriving Repr

/-! ## Chunk aggregation (`AIMessageChunk.__add__`)

`tool_call` accumulates chunked tool calls with `tool_calls += token`
(app.py line 98).  langchain's `AIMessageChunk.__add__` concatenates the
`content` strings and merges the `tool_call_chunks` lists with
`merge_lists`: an incoming chunk whose `index` matches an accumulated chunk
is merged into the first such chunk field-by-field (`merge_dicts`:
string fields concatenate, a `None` on either side yields the other side,
equal `index` values are kept), and a chunk with no matching `index` is
appended.  Only the `content` and `tool_call_chunks` fields of the
accumulated chunk message are ever read afterwards, so the accumulator
carries exactly those. -/

/-- Field merge of `merge_dicts` for optional string fields: `None` yields
the other side, two strings concatenate. -/
def mergeOptStr : Option String → Option String → Option String
  | none, b => b
  | some a, none => some a
  | some a, some b => some (a ++ b)

/-- Merge two tool-call chunks with equal `index` (`merge_dicts`). -/
def mergeChunkPair (a b : ToolCallChunk) : ToolCallChunk :=
  { name := mergeOptStr a.name b.name
    args := mergeOptStr a.args b.args
    id := mergeOptStr a.id b.id
    index := a.index }

/-- Merge chunk `e` (whose `index` is `some i`) into the first accumulated
chunk with the same index, or append it if there is none. -/
def mergeChunkAt (i : Nat) (e : ToolCallChunk) : List ToolCallChunk → List ToolCallChunk
  | [] => [e]
  | x :: xs => if x.index = some i then mergeChunkPair x e :: xs else x :: mergeChunkAt i e xs

/-- Add one incoming chunk to the accumulated chunk list (`merge_lists`,
one element of the right-hand list). -/
def addChunkEntry (acc : List ToolCallChunk) (e : ToolCallChunk) : List ToolCallChunk :=
  match e.index with
  | none => acc ++ [e]
  | some i => mergeChunkAt i e acc

/-- langchain `merge_lists` on `tool_call_chunks`. -/
def mergeLists (left right : List ToolCallChunk) : List ToolCallChunk :=
  right.foldl addChunkEntry left

/-- The accumulated chunk message: the fields of the running
`AIMessageChunk` sum that the code reads. -/
structure ChunkAcc where
  content : String
  tool_call_chunks : List ToolCallChunk
deriving Repr

/-- View a triggering token as the initial accumulator (`tool_calls = init_token`,
app.py line 95). -/
def toChunkAcc (t : AIMessageChunk) : ChunkAcc :=
  ⟨t.content, t.tool_call_chunks⟩

/-- One `tool_calls += token` step (app.py line 98): `AIMessageChunk.__add__`
restricted to the fields read downstream. -/
def addMessage (acc : ChunkAcc) (t : AIMessageChunk) : ChunkAcc :=
  ⟨acc.content ++ t.content, mergeLists acc.tool_call_chunks t.tool_call_chunks⟩

/-! ## `tool_call` (app.py lines 91-121)

The source function first aggregates (lines 94-109) and then renders the
aggregate into a step (lines 112-121); the embedding splits it into
`tool_call_aggregate` and `renderAggregate` composed by `tool_call`. -/

/-- The value bound to the Python local `tool_calls` when the aggregation
part of `tool_call` finishes:
* `chunks`: a terminal non-chunk event was drawn and
  `tool_calls = tool_calls.tool_call_chunks` ran (line 100);
* `raw`: the sequence was exhausted mid-aggregation, so `tool_calls` is still
  the accumulated chunk message object, never resolved to its
  `tool_call_chunks` list;
* `complete`: the triggering token carried fully-formed `tool_calls`
  (line 105). -/
inductive ToolCallAggregate where
  | chunks (cs : List ToolCallChunk)
  | raw (acc : ChunkAcc)
  | complete (ts : List ToolCall)
deriving Repr

/-- The chunk-accumulation loop (app.py lines 96-101): draw events from the
shared sequence; an event with non-empty `tool_call_chunks` is added to the
accumulator; the first event without them stops the loop, the aggregate
becomes the accumulator's `tool_call_chunks` list, and that terminal event is
discarded.  If the sequence runs out first, the accumulator itself is the
aggregate. -/
def aggLoop : List Event → ChunkAcc → ToolCallAggregate × List Event
  | [], acc => (ToolCallAggregate.raw acc, [])
  | e :: rest, acc =>
    if e.token.tool_call_chunks.isEmpty then
      (ToolCallAggregate.chunks acc.tool_call_chunks, rest)
    else
      aggLoop rest (addMessage acc e.token)

/-- Aggregation part of `tool_call` (app.py lines 94-109).  The branch order
matches the source: chunked first, then fully-formed `tool_calls`, else the
`AttributeError`. -/
def tool_call_aggregate (events : List Event) (init_token : AIMessageChunk) :
    Except String (ToolCallAggregate × List Event) :=
  if init_token.tool_call_chunks.isEmpty then
    if init_token.tool_calls.isEmpty then
      Except.error "Token is missing tool call attributes"
    else
      Except.ok (ToolCallAggregate.complete init_token.tool_calls, events)
  else
    Except.ok (aggLoop events (toChunkAcc init_token))

/-- One entry of the rendered tool-call step output (app.py lines 113-119):
`{"name": tool["name"], "args": ...}` with `args` parsed from JSON when it is
still a string.  The source then serializes this list with `json.dumps`; the
embedding keeps the structured value. -/
structure RenderedTool where
  name : Option String
  args : Json
deriving Repr

/-- Render one aggregated chunk entry: `tool["name"]` may be `None`;
`tool["args"]` is a string fragment concatenation (parsed with `json.loads`)
or `None` (used as-is, serialized as JSON null). -/
def renderChunkTool (c : ToolCallChunk) : Option RenderedTool :=
  match c.args with
  | some s => (json_loads s).map (fun j => ⟨c.name, j⟩)
  | none => some ⟨c.name, Json.null⟩

/-- Render one completed tool call: `args` is parsed when it is a string and
used as-is otherwise (app.py line 116). -/
def renderCompleteTool (tc : ToolCall) : Option RenderedTool :=
  match tc.args with
  | ArgsVal.ofStr s => (json_loads s).map (fun j => ⟨some tc.name, j⟩)
  | ArgsVal.ofJson j => some ⟨some tc.name, j⟩

/-- Rendering part of `tool_call` (app.py lines 112-121), iterating
`for tool in tool_calls`.  On a `raw` aggregate the Python iteration runs
over the accumulated pydantic message object itself, yielding
`(field, value)` pairs, and `tool["name"]` raises `TypeError`; that failure
is `none` here.  `none` also models a `json.loads` failure. -/
def renderAggregate : ToolCallAggregate → Option (List RenderedTool)
  | ToolCallAggregate.chunks cs => cs.mapM renderChunkTool
  | ToolCallAggregate.complete ts => ts.mapM renderCompleteTool
  | ToolCallAggregate.raw _ => none

/-- `tool_call` (app.py lines 91-121): aggregate, then render the tool-call
step.  An `Except.error` is a raised exception escaping `tool_call`. -/
def tool_call (events : List Event) (init_token : AIMessageChunk) :
    Except String (List RenderedTool × List Event) :=
  match tool_call_aggregate events init_token with
  | Except.error e => Except.error e
  | Except.ok (agg, rest) =>
    match renderAggregate agg with
    | some tools => Except.ok (tools, rest)
    | none => Except.error "tool call rendering failed"

/-! ## `thinking` and `tool_response` (app.py lines 75-89) -/

/-- The `thinking` sub-loop (app.py lines 75-81): consume events from the
shared sequence, streaming each token's content into the thinking step, until
an event whose content is `"</think>"` is drawn (that event is consumed and
otherwise ignored) or the sequence ends.  Returns the streamed fragments in
order and the remaining sequence. -/
def thinking : List Event → List String × List Event
  | [] => ([], [])
  | e :: rest =>
    if e.token.content = "</think>" then ([], rest)
    else
      let p := thinking rest
      (e.token.content :: p.1, p.2)

/-- `tool_response` (app.py lines 84-89): when the token has content, a
one-shot step whose output is the content in a fenced code block. -/
def tool_response (token : AIMessageChunk) : Option String :=
  if token.content = "" then none
  else some ("```\n" ++ token.content ++ "\n```")

/-- Substring test over the characters, modelling Python `"tools" in node`
(app.py line 147). -/
def hasSubstrAux (p : List Char) : List Char → Bool
  | [] => p.isEmpty
  | c :: t => p.isPrefixOf (c :: t) || hasSubstrAux p t

/-- Whether `pat` occurs as a contiguous substring of `s`. -/
def hasSubstr (s pat : String) : Bool :=
  hasSubstrAux pat.data s.data

/-- Concatenation of a list of strings in order. -/
def strJoin : List String → String
  | [] => ""
  | s :: rest => s ++ strJoin rest

/-! ## The relay (`stream_agent_response`, app.py lines 124-164)

UI side effects become an ordered trace of `UIAction`s.  A Display Message is
the `cl.Message` bound to the Python local `msg`: `openMsg` is its creation
(`cl.Message(content="")`, line 153), `streamTok` is `msg.stream_token`, and
`finalizeMsg` is the pair `msg.update()` + `message_history.append` (lines
136-137 and 162-164), carrying the message's full accumulated content and
whether the flush was caused by a node change or by stream end. -/

/-- Why a Display Message was finalized: the node-change branch (app.py
lines 134-138, carrying the new node) or the post-loop flush (lines 162-164). -/
inductive FlushCause where
  | nodeChange (newNode : String)
  | streamEnd
deriving Repr, DecidableEq

/-- One UI side effect of the relay, in order of occurrence. -/
inductive UIAction where
  | openMsg (node : String)
  | streamTok (tok : String)
  | finalizeMsg (content : String) (cause : FlushCause)
  | thinkingStep (content : String)
  | toolRespStep (output : String)
  | toolCallStep (tools : List RenderedTool)
deriving Repr

/-- The open Display Message (`msg` when not `None`): its accumulated
content, plus — for specification purposes only — the node of the event
during which it was created (`openedAt` is ghost state, not in the source). -/
structure ClMessage where
  content : String
  openedAt : String
deriving Repr, DecidableEq

/-- The node-change check (app.py lines 133-138): when the node differs from
`last_node`, an open message is finalized and `msg` is reset to `None`. -/
def nodeChangeStep (last node : String) (msg : Option ClMessage) :
    List UIAction × Option ClMessage :=
  if node ≠ last then
    match msg with
    | some m => ([UIAction.finalizeMsg m.content (FlushCause.nodeChange node)], none)
    | none => ([], none)
  else ([], msg)

/-- Result of the content dispatch for one event. -/
structure ContentRes where
  acts : List UIAction
  msg : Option ClMessage
  rest : List Event
deriving Repr

/-- The content dispatch (app.py lines 141-154): nothing for an empty
content; the literal `"<think>"` enters the `thinking` sub-loop (which
consumes further events); a node containing `"tools"` yields a tool-response
step; otherwise the content is streamed into the (lazily created) Display
Message. -/
def contentActions (msg : Option ClMessage) (node : String) (t : AIMessageChunk)
    (rest : List Event) : ContentRes :=
  if t.content = "" then ⟨[], msg, rest⟩
  else if t.content = "<think>" then
    let p := thinking rest
    ⟨[UIAction.thinkingStep (strJoin p.1)], msg, p.2⟩
  else if hasSubstr node "tools" then
    ⟨(match tool_response t with
      | some out => [UIAction.toolRespStep out]
      | none => []), msg, rest⟩
  else
    match msg with
    | none => ⟨[UIAction.openMsg node, UIAction.streamTok t.content],
               some ⟨t.content, node⟩, rest⟩
    | some m => ⟨[UIAction.streamTok t.content],
                 some ⟨m.content ++ t.content, m.openedAt⟩, rest⟩

/-- Result of the tool-call guard for one event. -/
structure ToolRes where
  acts : List UIAction
  rest : List Event
  ok : Bool
deriving Repr

/-- The tool-call guard (app.py lines 156-157): when the token carries
non-empty `tool_calls` or non-empty `tool_call_chunks`, run `tool_call` on
the shared sequence.  `ok = false` records an exception escaping `tool_call`
(aborting the turn). -/
def toolActions (t : AIMessageChunk) (rest : List Event) : ToolRes :=
  if !t.tool_calls.isEmpty || !t.tool_call_chunks.isEmpty then
    match tool_call rest t with
    | Except.ok (tools, rest') => ⟨[UIAction.toolCallStep tools], rest', true⟩
    | Except.error _ => ⟨[], rest, false⟩
  else ⟨[], rest, true⟩

/-- The post-loop flush (app.py lines 162-164). -/
def finalFlushActs : Option ClMessage → List UIAction
  | none => []
  | some m => [UIAction.finalizeMsg m.content FlushCause.streamEnd]

/-- The relay loop, with a fuel argument making the recursion structural.
Each iteration consumes at least one event and the sub-loops only consume
more, so any fuel exceeding the list length never runs out (`relayFuel_irrel`
below); the fuel-exhausted result is unreachable from `relayFrom`.  Returns
the UI trace in order and whether the turn ran to completion (`false` when an
exception escaped `tool_call`). -/
def relayFuel : Nat → String → Option ClMessage → List Event → List UIAction × Bool
  | 0, _, _, _ => ([], false)
  | _ + 1, _, msg, [] => (finalFlushActs msg, true)
  | fuel + 1, last, msg, e :: rest =>
    let node := e.langgraph_node
    let p1 := nodeChangeStep last node msg
    let p2 := contentActions p1.2 node e.token rest
    let p3 := toolActions e.token p2.rest
    if p3.ok then
      let r := relayFuel fuel node p2.msg p3.rest
      (p1.1 ++ p2.acts ++ p3.acts ++ r.1, r.2)
    else
      (p1.1 ++ p2.acts ++ p3.acts, false)

/-- The relay loop from an arbitrary `last_node` / open-message state. -/
def relayFrom (last : String) (msg : Option ClMessage) (events : List Event) :
    List UIAction × Bool :=
  relayFuel (events.length + 1) last msg events

/-- `stream_agent_response` (app.py lines 124-164) applied to the event
sequence the agent graph streams for one turn: `last_node` starts empty and
no message is open. -/
def stream_agent_response (events : List Event) : List UIAction × Bool :=
  relayFrom "" none events

/-! ## Trace observers -/

/-- Number of Display Messages opened in a trace. -/
def openCount (tr : List UIAction) : Nat :=
  tr.countP (fun a => match a with | UIAction.openMsg _ => true | _ => false)

/-- Contents appended to `message_history` by finalizations, in order. -/
def finalizedContents (tr : List UIAction) : List String :=
  tr.filterMap (fun a => match a with | UIAction.finalizeMsg c _ => some c | _ => none)

/-- Message-lifecycle checker, one action at a time.  The running state is
the node under which the currently open Display Message was created (`none`
when no message is open); the outer `none` signals a violation:
opening while open, finalizing while closed, or a node-change finalize whose
new node equals the node the message was opened under. -/
def msgCheckAction : Option String → UIAction → Option (Option String)
  | none, UIAction.openMsg n => some (some n)
  | some _, UIAction.openMsg _ => none
  | some o, UIAction.finalizeMsg _ (FlushCause.nodeChange m) =>
      if m = o then none else some none
  | some _, UIAction.finalizeMsg _ FlushCause.streamEnd => some none
  | none, UIAction.finalizeMsg _ _ => none
  | cur, _ => some cur

/-- Run the lifecycle checker over a trace. -/
def msgCheck : Option String → List UIAction → Option (Option String)
  | cur, [] => some cur
  | cur, a :: rest =>
    match msgCheckAction cur a with
    | some cur' => msgCheck cur' rest
    | none => none

/-! ## Tracing-metadata call sites (agent.py lines 57-66, app.py line 185)

`mlflow.update_current_trace` is external; whether it raises (e.g. because no
trace is active, as during batch evaluation) is an input of the model. -/

/-- Outcome of the external `mlflow.update_current_trace` call. -/
inductive TraceUpdateOutcome where
  | success
  | noActiveTrace
deriving Repr, DecidableEq

/-- Model of `mlflow.update_current_trace(metadata={"mlflow.trace.user": user})`:
raises when no trace is active. -/
def mlflow_update_current_trace (outcome : TraceUpdateOutcome) : Except String Unit :=
  match outcome with
  | TraceUpdateOutcome.success => Except.ok ()
  | TraceUpdateOutcome.noActiveTrace => Except.error "No active trace"

/-- `update_tracing` (agent.py lines 57-66): the metadata-update call wrapped
in `try: ... except Exception: pass`. -/
def update_tracing (outcome : TraceUpdateOutcome) : Except String Unit :=
  match mlflow_update_current_trace outcome with
  | Except.ok _ => Except.ok ()
  | Except.error _ => Except.ok ()

/-- The metadata-update call in `main` (app.py line 185): made bare, with no
surrounding try/except, so a failure propagates out of the turn handler. -/
def main_update_current_trace (outcome : TraceUpdateOutcome) : Except String Unit :=
  mlflow_update_current_trace outcome

/-! ## Consumption bounds: sub-loops never add events back -/

theorem thinking_rest_le (evs : List Event) : (thinking evs).2.length ≤ evs.length := by
  induction evs with
  | nil => simp [thinking]
  | cons e rest ih =>
    simp only [thinking]
    split
    · simp
    · simpa using Nat.le_succ_of_le ih

theorem aggLoop_rest_le (evs : List Event) : ∀ acc, (aggLoop evs acc).2.length ≤ evs.length := by
  induction evs with
  | nil => intro acc; simp [aggLoop]
  | cons e rest ih =>
    intro acc
    simp only [aggLoop]
    split
    · simp
    · exact Nat.le_succ_of_le (ih _)

theorem tool_call_aggregate_rest_le (evs : List Event) (t : AIMessageChunk)
    (agg : ToolCallAggregate) (rest' : List Event)
    (h : tool_call_aggregate evs t = Except.ok (agg, rest')) :
    rest'.length ≤ evs.length := by
  unfold tool_call_aggregate at h
  split at h
  · split at h
    · exact absurd h (by simp)
    · simp only [Except.ok.injEq, Prod.mk.injEq] at h
      obtain ⟨-, h2⟩ := h
      subst h2
      exact le_refl _
  · simp only [Except.ok.injEq] at h
    have h2 : rest' = (aggLoop evs (toChunkAcc t)).2 := by
      rw [h]
    rw [h2]
    exact aggLoop_rest_le evs _

theorem tool_call_rest_le (evs : List Event) (t : AIMessageChunk) (tools : List RenderedTool)
    (rest' : List Event) (h : tool_call evs t = Except.ok (tools, rest')) :
    rest'.length ≤ evs.length := by
  cases hagg : tool_call_aggregate evs t with
  | error e =>
    have heq : tool_call evs t = Except.error e := by
      unfold tool_call; rw [hagg]
    rw [heq] at h
    exact absurd h (by simp)
  | ok p =>
    obtain ⟨agg, rest1⟩ := p
    have heq : tool_call evs t = (match renderAggregate agg with
        | some tools => Except.ok (tools, rest1)
        | none => Except.error "tool call rendering failed") := by
      unfold tool_call; rw [hagg]
    rw [heq] at h
    cases hr : renderAggregate agg with
    | none =>
      rw [hr] at h
      exact absurd h (by simp)
    | some tools' =>
      rw [hr] at h
      simp only [Except.ok.injEq, Prod.mk.injEq] at h
      obtain ⟨-, h2⟩ := h
      rw [← h2]
      exact tool_call_aggregate_rest_le evs t agg rest1 hagg

theorem contentActions_rest_le (msg : Option ClMessage) (node : String) (t : AIMessageChunk)
    (rest : List Event) : (contentActions msg node t rest).rest.length ≤ rest.length := by
  unfold contentActions
  split
  · simp
  · split
    · exact thinking_rest_le rest
    · split
      · simp
      · cases msg <;> simp

theorem toolActions_rest_le (t : AIMessageChunk) (rest : List Event) :
    (toolActions t rest).rest.length ≤ rest.length := by
  unfold toolActions
  split
  · cases htc : tool_call rest t with
    | ok p =>
      obtain ⟨tools, rest'⟩ := p
      simpa using tool_call_rest_le rest t tools rest' htc
    | error e => simp
  · simp

/-! ## Fuel irrelevance and loop unfolding -/

theorem relayFuel_irrel :
    ∀ (n : Nat) (evs : List Event) (f g : Nat) (last : String) (msg : Option ClMessage),
      evs.length ≤ n → evs.length < f → evs.length < g →
      relayFuel f last msg evs = relayFuel g last msg evs := by
  intro n
  induction n with
  | zero =>
    intro evs f g last msg hlen hf hg
    have hnil : evs = [] := List.length_eq_zero.mp (Nat.le_zero.mp hlen)
    subst hnil
    match f, g, hf, hg with
    | f' + 1, g' + 1, _, _ => rfl
  | succ k ih =>
    intro evs f g last msg hlen hf hg
    match evs with
    | [] =>
      match f, g, hf, hg with
      | f' + 1, g' + 1, _, _ => rfl
    | e :: rest =>
      match f, g, hf, hg with
      | f' + 1, g' + 1, hf, hg =>
        simp only [List.length_cons] at hlen hf hg
        simp only [relayFuel]
        have h2 := contentActions_rest_le (nodeChangeStep last e.langgraph_node msg).2
          e.langgraph_node e.token rest
        have h3 := toolActions_rest_le e.token
          (contentActions (nodeChangeStep last e.langgraph_node msg).2
            e.langgraph_node e.token rest).rest
        rw [ih (toolActions e.token (contentActions (nodeChangeStep last e.langgraph_node msg).2
              e.langgraph_node e.token rest).rest).rest f' g' e.langgraph_node
            (contentActions (nodeChangeStep last e.langgraph_node msg).2
              e.langgraph_node e.token rest).msg
            (by omega) (by omega) (by omega)]

/-- The per-event pipeline of the loop body, named for reuse in statements:
the node-change check. -/
def stepP1 (last : String) (msg : Option ClMessage) (e : Event) :
    List UIAction × Option ClMessage :=
  nodeChangeStep last e.langgraph_node msg

/-- The per-event pipeline: the content dispatch after the node-change check. -/
def stepP2 (last : String) (msg : Option ClMessage) (e : Event) (rest : List Event) :
    ContentRes :=
  contentActions (stepP1 last msg e).2 e.langgraph_node e.token rest

/-- The per-event pipeline: the tool-call guard after the content dispatch. -/
def stepP3 (last : String) (msg : Option ClMessage) (e : Event) (rest : List Event) :
    ToolRes :=
  toolActions e.token (stepP2 last msg e rest).rest

theorem relayFrom_nil (last : String) (msg : Option ClMessage) :
    relayFrom last msg [] = (finalFlushActs msg, true) := rfl

theorem relayFrom_cons (last : String) (msg : Option ClMessage) (e : Event) (rest : List Event) :
    relayFrom last msg (e :: rest) =
      if (stepP3 last msg e rest).ok then
        ((stepP1 last msg e).1 ++ (stepP2 last msg e rest).acts ++ (stepP3 last msg e rest).acts
            ++ (relayFrom e.langgraph_node (stepP2 last msg e rest).msg
                  (stepP3 last msg e rest).rest).1,
         (relayFrom e.langgraph_node (stepP2 last msg e rest).msg
            (stepP3 last msg e rest).rest).2)
      else
        ((stepP1 last msg e).1 ++ (stepP2 last msg e rest).acts ++ (stepP3 last msg e rest).acts,
         false) := by
  simp only [relayFrom, stepP3, stepP2, stepP1, List.length_cons, relayFuel]
  have h2 := contentActions_rest_le (nodeChangeStep last e.langgraph_node msg).2
    e.langgraph_node e.token rest
  have h3 := toolActions_rest_le e.token
    (contentActions (nodeChangeStep last e.langgraph_node msg).2
      e.langgraph_node e.token rest).rest
  rw [relayFuel_irrel
      (toolActions e.token (contentActions (nodeChangeStep last e.langgraph_node msg).2
        e.langgraph_node e.token rest).rest).rest.length
      (toolActions e.token (contentActions (nodeChangeStep last e.langgraph_node msg).2
        e.langgraph_node e.token rest).rest).rest
      (rest.length + 1)
      ((toolActions e.token (contentActions (nodeChangeStep last e.langgraph_node msg).2
        e.langgraph_node e.token rest).rest).rest.length + 1)
      e.langgraph_node
      (contentActions (nodeChangeStep last e.langgraph_node msg).2
        e.langgraph_node e.token rest).msg
      (le_refl _) (by omega) (by omega)]

/-! ## Lifecycle checker: compositionality -/

theorem msgCheck_append (cur : Option String) (l1 l2 : List UIAction) :
    msgCheck cur (l1 ++ l2) =
      match msgCheck cur l1 with
      | some c => msgCheck c l2
      | none => none := by
  induction l1 generalizing cur with
  | nil => simp [msgCheck]
  | cons a rest ih =>
    simp only [List.cons_append, msgCheck]
    cases msgCheckAction cur a with
    | some cur' => exact ih cur'
    | none => rfl

theorem nodeChangeStep_none (last node : String) :
    nodeChangeStep last node none = ([], none) := by
  unfold nodeChangeStep
  split <;> rfl

/-- The node-change check respects the message lifecycle: starting from an
open message created under `last`, its actions move the checker to the
resulting open-message state, and any message still open afterwards was
opened under the current node. -/
theorem nodeChangeStep_check (last node : String) (msg : Option ClMessage)
    (hinv : ∀ m, msg = some m → m.openedAt = last) :
    msgCheck (Option.map ClMessage.openedAt msg) (nodeChangeStep last node msg).1
      = some (Option.map ClMessage.openedAt (nodeChangeStep last node msg).2)
    ∧ ∀ m, (nodeChangeStep last node msg).2 = some m → m.openedAt = node := by
  cases msg with
  | none =>
    rw [nodeChangeStep_none]
    exact ⟨rfl, by intro m hm; simp at hm⟩
  | some m =>
    have hml : m.openedAt = last := hinv m rfl
    unfold nodeChangeStep
    by_cases h : node = last
    · rw [if_neg (by simpa using h)]
      refine ⟨rfl, ?_⟩
      intro m' hm'
      cases hm'
      rw [hml, h]
    · rw [if_pos h]
      refine ⟨?_, by intro m' hm'; simp at hm'⟩
      show msgCheck (some m.openedAt)
          [UIAction.finalizeMsg m.content (FlushCause.nodeChange node)] = some none
      simp only [msgCheck, msgCheckAction]
      rw [if_neg (by rw [hml]; exact h)]

/-- The content dispatch respects the message lifecycle, and a message open
after it was opened under the current node (given that an already-open input
message was). -/
theorem contentActions_check (msg : Option ClMessage) (node : String) (t : AIMessageChunk)
    (rest : List Event)
    (hinv : ∀ m, msg = some m → m.openedAt = node) :
    msgCheck (Option.map ClMessage.openedAt msg) (contentActions msg node t rest).acts
      = some (Option.map ClMessage.openedAt (contentActions msg node t rest).msg)
    ∧ ∀ m, (contentActions msg node t rest).msg = some m → m.openedAt = node := by
  unfold contentActions
  split
  · exact ⟨rfl, hinv⟩
  · split
    · refine ⟨?_, hinv⟩
      cases msg <;> rfl
    · split
      · refine ⟨?_, hinv⟩
        cases tool_response t <;> cases msg <;> rfl
      · cases msg with
        | none =>
          refine ⟨rfl, ?_⟩
          intro m hm
          cases hm
          rfl
        | some m0 =>
          refine ⟨rfl, ?_⟩
          intro m hm
          cases hm
          exact hinv m0 rfl

/-- The tool-call guard emits no message-lifecycle actions. -/
theorem toolActions_check (t : AIMessageChunk) (rest : List Event) (cur : Option String) :
    msgCheck cur (toolActions t rest).acts = some cur := by
  unfold toolActions
  split
  · cases htc : tool_call rest t with
    | ok p =>
      obtain ⟨tools, rest'⟩ := p
      cases cur <;> rfl
    | error e => rfl
  · rfl

theorem stepP2_rest_le (last : String) (msg : Option ClMessage) (e : Event)
    (rest : List Event) : (stepP2 last msg e rest).rest.length ≤ rest.length :=
  contentActions_rest_le _ _ _ _

theorem stepP3_rest_le (last : String) (msg : Option ClMessage) (e : Event)
    (rest : List Event) : (stepP3 last msg e rest).rest.length ≤ rest.length :=
  le_trans (toolActions_rest_le _ _) (stepP2_rest_le last msg e rest)

theorem stepP1_check (last : String) (msg : Option ClMessage) (e : Event)
    (hinv : ∀ m, msg = some m → m.openedAt = last) :
    msgCheck (Option.map ClMessage.openedAt msg) (stepP1 last msg e).1
      = some (Option.map ClMessage.openedAt (stepP1 last msg e).2)
    ∧ ∀ m, (stepP1 last msg e).2 = some m → m.openedAt = e.langgraph_node :=
  nodeChangeStep_check last e.langgraph_node msg hinv

theorem stepP2_check (last : String) (msg : Option ClMessage) (e : Event) (rest : List Event)
    (hinv : ∀ m, (stepP1 last msg e).2 = some m → m.openedAt = e.langgraph_node) :
    msgCheck (Option.map ClMessage.openedAt (stepP1 last msg e).2) (stepP2 last msg e rest).acts
      = some (Option.map ClMessage.openedAt (stepP2 last msg e rest).msg)
    ∧ ∀ m, (stepP2 last msg e rest).msg = some m → m.openedAt = e.langgraph_node :=
  contentActions_check _ _ _ _ hinv

theorem stepP3_check (last : String) (msg : Option ClMessage) (e : Event) (rest : List Event)
    (cur : Option String) :
    msgCheck cur (stepP3 last msg e rest).acts = some cur :=
  toolActions_check _ _ _

/-- Core lifecycle invariant: a completed run of the relay loop from a state
whose open message (if any) was opened under `last` produces a trace the
lifecycle checker accepts, ending with no message open. -/
theorem relayFrom_msgCheck :
    ∀ (n : Nat) (evs : List Event) (last : String) (msg : Option ClMessage),
      evs.length ≤ n →
      (∀ m, msg = some m → m.openedAt = last) →
      (relayFrom last msg evs).2 = true →
      msgCheck (Option.map ClMessage.openedAt msg) (relayFrom last msg evs).1 = some none := by
  intro n
  induction n with
  | zero =>
    intro evs last msg hlen hinv hok
    have hnil : evs = [] := List.length_eq_zero.mp (Nat.le_zero.mp hlen)
    subst hnil
    rw [relayFrom_nil]
    cases msg <;> rfl
  | succ k ih =>
    intro evs last msg hlen hinv hok
    cases evs with
    | nil =>
      rw [relayFrom_nil]
      cases msg <;> rfl
    | cons e rest =>
      rw [relayFrom_cons] at hok ⊢
      by_cases h3 : (stepP3 last msg e rest).ok
      · rw [if_pos h3] at hok ⊢
        obtain ⟨hc1, hi1⟩ := stepP1_check last msg e hinv
        obtain ⟨hc2, hi2⟩ := stepP2_check last msg e rest hi1
        have hc3 := stepP3_check last msg e rest
          (Option.map ClMessage.openedAt (stepP2 last msg e rest).msg)
        have hlen2 : (stepP3 last msg e rest).rest.length ≤ k := by
          have := stepP3_rest_le last msg e rest
          simp only [List.length_cons] at hlen
          omega
        simp only [msgCheck_append, hc1, hc2, hc3]
        exact ih _ _ _ hlen2 hi2 hok
      · rw [if_neg h3] at hok
        simp at hok

/-! ## Aggregation lemmas -/

theorem isEmpty_false_of_ne_nil {α : Type} {l : List α} (h : l ≠ []) : l.isEmpty = false := by
  cases l with
  | nil => exact absurd rfl h
  | cons a t => rfl

theorem aggLoop_terminal (chunkEvs : List Event) (terminal : Event) (post : List Event) :
    ∀ acc : ChunkAcc,
      (∀ ev ∈ chunkEvs, ev.token.tool_call_chunks ≠ []) →
      terminal.token.tool_call_chunks = [] →
      aggLoop (chunkEvs ++ terminal :: post) acc =
        (ToolCallAggregate.chunks
          (chunkEvs.foldl (fun a ev => addMessage a ev.token) acc).tool_call_chunks, post) := by
  induction chunkEvs with
  | nil =>
    intro acc hC hterm
    simp only [List.nil_append, aggLoop, List.foldl_nil]
    rw [if_pos (by rw [hterm]; rfl)]
  | cons e es ih =>
    intro acc hC hterm
    simp only [List.cons_append, aggLoop, List.foldl_cons]
    rw [if_neg (by rw [isEmpty_false_of_ne_nil (hC e (List.mem_cons_self e es))]; simp)]
    exact ih _ (fun ev hv => hC ev (List.mem_cons_of_mem e hv)) hterm

theorem aggLoop_exhaust (evs : List Event) :
    ∀ acc : ChunkAcc,
      (∀ ev ∈ evs, ev.token.tool_call_chunks ≠ []) →
      aggLoop evs acc =
        (ToolCallAggregate.raw (evs.foldl (fun a ev => addMessage a ev.token) acc), []) := by
  induction evs with
  | nil => intro acc h; rfl
  | cons e es ih =>
    intro acc h
    simp only [aggLoop, List.foldl_cons]
    rw [if_neg (by rw [isEmpty_false_of_ne_nil (h e (List.mem_cons_self e es))]; simp)]
    exact ih _ (fun ev hv => h ev (List.mem_cons_of_mem e hv))

theorem tool_call_aggregate_chunked (evs : List Event) (t : AIMessageChunk)
    (h : t.tool_call_chunks ≠ []) :
    tool_call_aggregate evs t = Except.ok (aggLoop evs (toChunkAcc t)) := by
  unfold tool_call_aggregate
  rw [if_neg (by rw [isEmpty_false_of_ne_nil h]; simp)]

theorem tool_call_aggregate_complete (evs : List Event) (t : AIMessageChunk)
    (h1 : t.tool_calls ≠ []) (h2 : t.tool_call_chunks = []) :
    tool_call_aggregate evs t
      = Except.ok (ToolCallAggregate.complete t.tool_calls, evs) := by
  unfold tool_call_aggregate
  rw [if_pos (by rw [h2]; rfl), if_neg (by rw [isEmpty_false_of_ne_nil h1]; simp)]

theorem contentActions_rest_eq (msg : Option ClMessage) (node : String) (t : AIMessageChunk)
    (rest : List Event) (h : t.content ≠ "<think>") :
    (contentActions msg node t rest).rest = rest := by
  unfold contentActions
  by_cases h0 : t.content = ""
  · rw [if_pos h0]
  · rw [if_neg h0, if_neg h]
    by_cases ht : hasSubstr node "tools" = true
    · rw [if_pos ht]
    · rw [if_neg ht]
      cases msg <;> rfl

/-! ## Evaluation lemmas for single-node, tool-free runs -/

theorem stepP1_same (n : String) (msg : Option ClMessage) (e : Event)
    (he : e.langgraph_node = n) : stepP1 n msg e = ([], msg) := by
  unfold stepP1 nodeChangeStep
  rw [he, if_neg (by simp)]

theorem stepP3_noTool (last : String) (msg : Option ClMessage) (e : Event) (rest : List Event)
    (h1 : e.token.tool_calls = []) (h2 : e.token.tool_call_chunks = []) :
    stepP3 last msg e rest = ⟨[], (stepP2 last msg e rest).rest, true⟩ := by
  unfold stepP3 toolActions
  rw [if_neg (by rw [h1, h2]; simp)]

theorem stepP2_empty (last : String) (msg : Option ClMessage) (e : Event) (rest : List Event)
    (he0 : e.token.content = "") :
    stepP2 last msg e rest = ⟨[], (stepP1 last msg e).2, rest⟩ := by
  unfold stepP2 contentActions
  rw [if_pos he0]

theorem stepP2_stream (last : String) (msg : Option ClMessage) (e : Event) (rest : List Event)
    (he0 : e.token.content ≠ "") (ht : e.token.content ≠ "<think>")
    (hn : hasSubstr e.langgraph_node "tools" = false) :
    stepP2 last msg e rest =
      match (stepP1 last msg e).2 with
      | none => ⟨[UIAction.openMsg e.langgraph_node, UIAction.streamTok e.token.content],
                 some ⟨e.token.content, e.langgraph_node⟩, rest⟩
      | some m => ⟨[UIAction.streamTok e.token.content],
                   some ⟨m.content ++ e.token.content, m.openedAt⟩, rest⟩ := by
  unfold stepP2 contentActions
  rw [if_neg he0, if_neg ht, if_neg (by rw [hn]; simp)]

/-- Relay over a tool-free, think-free run all on node `n` (not a tools
node), starting with an open message with content `c`: no further message is
opened, and the single stream-end finalize carries `c` followed by every
content fragment in order. -/
theorem relayFrom_open_sameNode (n : String) (hn : hasSubstr n "tools" = false) :
    ∀ (evs : List Event) (c g : String),
      (∀ e ∈ evs, e.langgraph_node = n ∧ e.token.content ≠ "<think>" ∧
          e.token.tool_calls = [] ∧ e.token.tool_call_chunks = []) →
      openCount (relayFrom n (some ⟨c, g⟩) evs).1 = 0
      ∧ finalizedContents (relayFrom n (some ⟨c, g⟩) evs).1
          = [c ++ strJoin (evs.map (fun e => e.token.content))]
      ∧ (relayFrom n (some ⟨c, g⟩) evs).2 = true := by
  intro evs
  induction evs with
  | nil =>
    intro c g _
    rw [relayFrom_nil]
    refine ⟨rfl, ?_, rfl⟩
    show [c] = [c ++ strJoin []]
    rw [show strJoin [] = "" from rfl, String.append_empty]
  | cons e rest ih =>
    intro c g h
    obtain ⟨he, hth, htc, hch⟩ := h e (List.mem_cons_self e rest)
    have hrest := fun ev hv => h ev (List.mem_cons_of_mem e hv)
    rw [relayFrom_cons]
    have hp1 : stepP1 n (some ⟨c, g⟩) e = ([], some ⟨c, g⟩) := stepP1_same n _ e he
    have hp3 : stepP3 n (some ⟨c, g⟩) e rest
        = ⟨[], (stepP2 n (some ⟨c, g⟩) e rest).rest, true⟩ := stepP3_noTool _ _ _ _ htc hch
    by_cases h0 : e.token.content = ""
    · have hp2 : stepP2 n (some ⟨c, g⟩) e rest = ⟨[], some ⟨c, g⟩, rest⟩ := by
        rw [stepP2_empty _ _ _ _ h0, hp1]
      rw [hp3, hp2, hp1, he]
      simp only [List.nil_append, eq_self_iff_true, if_true]
      obtain ⟨ih1, ih2, ih3⟩ := ih c g hrest
      refine ⟨ih1, ?_, ih3⟩
      rw [ih2]
      simp only [List.map_cons, strJoin, h0, String.empty_append]
    · have hp2 : stepP2 n (some ⟨c, g⟩) e rest
          = ⟨[UIAction.streamTok e.token.content],
             some ⟨c ++ e.token.content, g⟩, rest⟩ := by
        rw [stepP2_stream _ _ _ _ h0 hth (by rw [he]; exact hn), hp1]
      rw [hp3, hp2, hp1, he]
      simp only [List.nil_append, eq_self_iff_true, if_true]
      obtain ⟨ih1, ih2, ih3⟩ := ih (c ++ e.token.content) g hrest
      refine ⟨?_, ?_, ih3⟩
      · simpa [openCount, List.countP_append, List.countP_cons] using ih1
      · show finalizedContents (UIAction.streamTok e.token.content
            :: (relayFrom n (some ⟨c ++ e.token.content, g⟩) rest).1)
          = [c ++ strJoin ((e :: rest).map (fun e => e.token.content))]
        simp only [finalizedContents, List.filterMap_cons] at ih2 ⊢
        rw [ih2]
        simp only [List.map_cons, strJoin, String.append_assoc]

/-- Relay over a tool-free, think-free run all on node `n` (not a tools
node), starting with no open message and at least one non-empty content
fragment: exactly one message is opened and the single finalize carries the
concatenation of every content fragment in order. -/
theorem relayFrom_closed_sameNode (n : String) (hn : hasSubstr n "tools" = false) :
    ∀ (evs : List Event) (last : String),
      (∀ e ∈ evs, e.langgraph_node = n ∧ e.token.content ≠ "<think>" ∧
          e.token.tool_calls = [] ∧ e.token.tool_call_chunks = []) →
      (∃ e ∈ evs, e.token.content ≠ "") →
      openCount (relayFrom last none evs).1 = 1
      ∧ finalizedContents (relayFrom last none evs).1
          = [strJoin (evs.map (fun e => e.token.content))]
      ∧ (relayFrom last none evs).2 = true := by
  intro evs
  induction evs with
  | nil =>
    intro last _ hsome
    obtain ⟨e, he, -⟩ := hsome
    exact absurd he (List.not_mem_nil e)
  | cons e rest ih =>
    intro last h hsome
    obtain ⟨he, hth, htc, hch⟩ := h e (List.mem_cons_self e rest)
    have hrest := fun ev hv => h ev (List.mem_cons_of_mem e hv)
    rw [relayFrom_cons]
    have hp1 : stepP1 last none e = ([], none) := by
      unfold stepP1
      exact nodeChangeStep_none last e.langgraph_node
    have hp3 : stepP3 last none e rest
        = ⟨[], (stepP2 last none e rest).rest, true⟩ := stepP3_noTool _ _ _ _ htc hch
    by_cases h0 : e.token.content = ""
    · have hp2 : stepP2 last none e rest = ⟨[], none, rest⟩ := by
        rw [stepP2_empty _ _ _ _ h0, hp1]
      rw [hp3, hp2, hp1, he]
      simp only [List.nil_append, eq_self_iff_true, if_true]
      have hsome' : ∃ ev ∈ rest, ev.token.content ≠ "" := by
        obtain ⟨ev, hv, hne⟩ := hsome
        rcases List.mem_cons.mp hv with heq | hmem
        · exact absurd h0 (heq ▸ hne)
        · exact ⟨ev, hmem, hne⟩
      obtain ⟨ih1, ih2, ih3⟩ := ih n hrest hsome'
      refine ⟨ih1, ?_, ih3⟩
      rw [ih2]
      simp only [List.map_cons, strJoin, h0, String.empty_append]
    · have hp2 : stepP2 last none e rest
          = ⟨[UIAction.openMsg e.langgraph_node, UIAction.streamTok e.token.content],
             some ⟨e.token.content, e.langgraph_node⟩, rest⟩ := by
        rw [stepP2_stream _ _ _ _ h0 hth (by rw [he]; exact hn), hp1]
      rw [hp3, hp2, hp1, he]
      simp only [List.nil_append, eq_self_iff_true, if_true]
      obtain ⟨ih1, ih2, ih3⟩ :=
        relayFrom_open_sameNode n hn rest e.token.content n hrest
      refine ⟨?_, ?_, ih3⟩
      · simpa [openCount, List.countP_append, List.countP_cons] using ih1
      · show finalizedContents (UIAction.openMsg n :: UIAction.streamTok e.token.content
            :: (relayFrom n (some ⟨e.token.content, n⟩) rest).1)
          = [strJoin ((e :: rest).map (fun e => e.token.content))]
        simp only [finalizedContents, List.filterMap_cons] at ih2 ⊢
        rw [ih2]
        simp only [List.map_cons, strJoin]

/-! ## Claims -/

/-- Claim C3, counterexample: the claim says every metadata-update call made
while handling a turn is caught and silently ignored on failure.  The call at
app.py line 185 (`main_update_current_trace`) is made without a surrounding
try/except: when the external call fails (no active trace), the failure
propagates out of the turn handler instead of being ignored. -/
theorem claim3_counterexample :
    main_update_current_trace TraceUpdateOutcome.noActiveTrace
      = Except.error "No active trace" := rfl

/-- Claim C3 as amended: the metadata-update call inside the agent's
`before_agent` middleware (`update_tracing`, agent.py lines 57-66) is caught
and silently ignored whatever the external call does, so a failure there
never fails the turn; the separate metadata-update call in the chat handler
`main` (app.py line 185) is unguarded and a failure there propagates. -/
theorem claim3_middleware_catches_main_does_not :
    (∀ outcome, update_tracing outcome = Except.ok ())
    ∧ main_update_current_trace TraceUpdateOutcome.noActiveTrace
        = Except.error "No active trace" :=
  ⟨fun outcome => by cases outcome <;> rfl, rfl⟩

/-- Claim C6: for a triggering token whose single tool-call chunk carries the
args fragment `{"a":` and a following event whose chunk (same index) carries
the fragment `1}`, followed by a non-chunk event, aggregation concatenates the
fragments into the string `{"a":1}`; since the accumulated `args` field is a
string it is parsed as JSON, and the rendered tool-call step carries the
structured value `{"a": 1}`. -/
theorem claim6_chunked_args_parsed_as_json :
    tool_call_aggregate
        [⟨⟨"", [], [⟨none, some "1\x7d", none, some 0⟩]⟩, "agent"⟩,
         ⟨⟨"stop", [], []⟩, "agent"⟩]
        ⟨"", [], [⟨some "f", some "\x7b\"a\":", some "call1", some 0⟩]⟩
      = Except.ok (ToolCallAggregate.chunks
          [⟨some "f", some "\x7b\"a\":1\x7d", some "call1", some 0⟩], [])
    ∧ renderAggregate (ToolCallAggregate.chunks
          [⟨some "f", some "\x7b\"a\":1\x7d", some "call1", some 0⟩])
        = some [⟨some "f", Json.obj [("a", Json.num 1)]⟩]
    ∧ tool_call
        [⟨⟨"", [], [⟨none, some "1\x7d", none, some 0⟩]⟩, "agent"⟩,
         ⟨⟨"stop", [], []⟩, "agent"⟩]
        ⟨"", [], [⟨some "f", some "\x7b\"a\":", some "call1", some 0⟩]⟩
      = Except.ok ([⟨some "f", Json.obj [("a", Json.num 1)]⟩], []) :=
  ⟨rfl, rfl, rfl⟩

/-- Claim C9: under the relay loop's guard (the triggering token has
non-empty `tool_calls` or non-empty `tool_call_chunks`, app.py line 156),
the `AttributeError` branch of `tool_call` (app.py line 109) is unreachable:
`tool_call` never produces that error for a token the loop passes it. -/
theorem claim9_attr_error_unreachable (evs : List Event) (t : AIMessageChunk)
    (h : t.tool_calls ≠ [] ∨ t.tool_call_chunks ≠ []) :
    tool_call evs t ≠ Except.error "Token is missing tool call attributes" := by
  by_cases hch : t.tool_call_chunks = []
  · have htc : t.tool_calls ≠ [] := by
      rcases h with h1 | h2
      · exact h1
      · exact absurd hch h2
    have heq : tool_call evs t = (match renderAggregate
          (ToolCallAggregate.complete t.tool_calls) with
        | some tools => Except.ok (tools, evs)
        | none => Except.error "tool call rendering failed") := by
      unfold tool_call
      rw [tool_call_aggregate_complete evs t htc hch]
    rw [heq]
    cases renderAggregate (ToolCallAggregate.complete t.tool_calls) with
    | some tools => simp
    | none =>
      intro hcon
      injection hcon with h'
      exact absurd h' (by decide)
  · rcases hpair : aggLoop evs (toChunkAcc t) with ⟨agg, rest⟩
    have heq : tool_call evs t = (match renderAggregate agg with
        | some tools => Except.ok (tools, rest)
        | none => Except.error "tool call rendering failed") := by
      unfold tool_call
      rw [tool_call_aggregate_chunked evs t hch, hpair]
    rw [heq]
    cases renderAggregate agg with
    | some tools => simp
    | none =>
      intro hcon
      injection hcon with h'
      exact absurd h' (by decide)

theorem claim9_witness :
    ((([⟨"f", ArgsVal.ofJson (Json.obj []), none⟩] : List ToolCall) ≠ [])
      ∨ (([] : List ToolCallChunk) ≠ []))
    ∧ tool_call [] ⟨"", [⟨"f", ArgsVal.ofJson (Json.obj []), none⟩], []⟩
        ≠ Except.error "Token is missing tool call attributes" :=
  ⟨Or.inl (by simp), claim9_attr_error_unreachable [] _ (Or.inl (by simp))⟩

/-- Claim C10: when the sequence is exhausted while chunk aggregation is in
progress (every drawn event also carries non-empty `tool_call_chunks`), the
`tool_calls = tool_calls.tool_call_chunks` resolution (app.py line 100) never
runs: the aggregate is the raw accumulated chunk message, not a finished
chunk list, and the rendering step (which would iterate the pydantic message
object and fail on `tool["name"]`) does not produce a tool list. -/
theorem claim10_exhausted_aggregate_stays_raw (evs : List Event) (t : AIMessageChunk)
    (h1 : t.tool_call_chunks ≠ [])
    (h2 : ∀ e ∈ evs, e.token.tool_call_chunks ≠ []) :
    tool_call_aggregate evs t
      = Except.ok (ToolCallAggregate.raw
          (evs.foldl (fun a e => addMessage a e.token) (toChunkAcc t)), [])
    ∧ renderAggregate (ToolCallAggregate.raw
        (evs.foldl (fun a e => addMessage a e.token) (toChunkAcc t))) = none := by
  constructor
  · rw [tool_call_aggregate_chunked evs t h1, aggLoop_exhaust evs (toChunkAcc t) h2]
  · rfl

theorem claim10_witness :
    (([⟨some "f", some "x", none, some 0⟩] : List ToolCallChunk) ≠ []
      ∧ ∀ e ∈ ([⟨⟨"", [], [⟨none, some "y", none, some 0⟩]⟩, "agent"⟩] : List Event),
          e.token.tool_call_chunks ≠ [])
    ∧ (tool_call_aggregate [⟨⟨"", [], [⟨none, some "y", none, some 0⟩]⟩, "agent"⟩]
          ⟨"", [], [⟨some "f", some "x", none, some 0⟩]⟩
        = Except.ok (ToolCallAggregate.raw
            (([⟨⟨"", [], [⟨none, some "y", none, some 0⟩]⟩, "agent"⟩] : List Event).foldl
              (fun a e => addMessage a e.token)
              (toChunkAcc ⟨"", [], [⟨some "f", some "x", none, some 0⟩]⟩)), [])
      ∧ renderAggregate (ToolCallAggregate.raw
          (([⟨⟨"", [], [⟨none, some "y", none, some 0⟩]⟩, "agent"⟩] : List Event).foldl
            (fun a e => addMessage a e.token)
            (toChunkAcc ⟨"", [], [⟨some "f", some "x", none, some 0⟩]⟩))) = none) :=
  ⟨⟨by simp, by simp⟩,
   claim10_exhausted_aggregate_stays_raw _ _ (by simp) (by simp)⟩

/-- Claim C8: when tool-call handling is triggered by a token carrying a
non-empty fully-formed `tool_calls` list and no `tool_call_chunks`, the
aggregate is exactly that list and no further events are consumed (the
returned remainder is the untouched sequence), and the relay's continuation
runs on exactly that remainder: the next event is processed by the outer
loop.  The trigger's content is assumed not to be the `"<think>"` sentinel
(otherwise the thinking sub-loop, not aggregation, would consume events),
and the rendered step for the aggregate is `R`. -/
theorem claim8_complete_toolcalls_consume_nothing (e : Event) (last : String)
    (msg : Option ClMessage) (rest : List Event) (R : List RenderedTool)
    (h1 : e.token.tool_calls ≠ []) (h2 : e.token.tool_call_chunks = [])
    (hthink : e.token.content ≠ "<think>")
    (hR : renderAggregate (ToolCallAggregate.complete e.token.tool_calls) = some R) :
    tool_call_aggregate rest e.token
        = Except.ok (ToolCallAggregate.complete e.token.tool_calls, rest)
    ∧ relayFrom last msg (e :: rest) =
        ((stepP1 last msg e).1 ++ (stepP2 last msg e rest).acts
            ++ [UIAction.toolCallStep R]
            ++ (relayFrom e.langgraph_node (stepP2 last msg e rest).msg rest).1,
         (relayFrom e.langgraph_node (stepP2 last msg e rest).msg rest).2) := by
  have hagg := tool_call_aggregate_complete rest e.token h1 h2
  refine ⟨hagg, ?_⟩
  have hrest2 : (stepP2 last msg e rest).rest = rest :=
    contentActions_rest_eq _ _ _ _ hthink
  have htc : tool_call rest e.token = Except.ok (R, rest) := by
    unfold tool_call
    rw [hagg]
    dsimp only
    rw [hR]
  have hp3 : stepP3 last msg e rest = ⟨[UIAction.toolCallStep R], rest, true⟩ := by
    unfold stepP3 toolActions
    rw [hrest2, if_pos (by rw [isEmpty_false_of_ne_nil h1]; simp), htc]
  rw [relayFrom_cons, hp3]
  simp only [eq_self_iff_true, if_true]

/-- Claim C2: once chunked tool-call aggregation is triggered by a token
with non-empty `tool_call_chunks`, it consumes events from the shared
sequence while they carry non-empty `tool_call_chunks`; the first drawn
event without them (`terminal`) stops aggregation and is discarded: the run
does not depend on any of `terminal`'s other fields — no Display Message
update, step, node-change flush or `last_node` update comes from it — and
the outer loop resumes with the events after it (`post`), with `last_node`
set to the trigger's node.  The trigger's content is assumed not to be the
`"<think>"` sentinel (otherwise the thinking sub-loop would consume the
chunk events first), and the rendered step for the aggregate is `R`. -/
theorem claim2_terminal_chunk_event_dropped (last : String) (msg : Option ClMessage)
    (e : Event) (chunkEvs : List Event) (terminal : Event) (post : List Event)
    (R : List RenderedTool)
    (hT : e.token.tool_call_chunks ≠ [])
    (hthink : e.token.content ≠ "<think>")
    (hC : ∀ ev ∈ chunkEvs, ev.token.tool_call_chunks ≠ [])
    (hterm : terminal.token.tool_call_chunks = [])
    (hR : renderAggregate (ToolCallAggregate.chunks
            (chunkEvs.foldl (fun a ev => addMessage a ev.token)
              (toChunkAcc e.token)).tool_call_chunks)
          = some R) :
    tool_call_aggregate (chunkEvs ++ terminal :: post) e.token
        = Except.ok (ToolCallAggregate.chunks
            (chunkEvs.foldl (fun a ev => addMessage a ev.token)
              (toChunkAcc e.token)).tool_call_chunks, post)
    ∧ relayFrom last msg (e :: (chunkEvs ++ terminal :: post)) =
        ((stepP1 last msg e).1
            ++ (stepP2 last msg e (chunkEvs ++ terminal :: post)).acts
            ++ [UIAction.toolCallStep R]
            ++ (relayFrom e.langgraph_node
                  (stepP2 last msg e (chunkEvs ++ terminal :: post)).msg post).1,
         (relayFrom e.langgraph_node
            (stepP2 last msg e (chunkEvs ++ terminal :: post)).msg post).2) := by
  have hagg : tool_call_aggregate (chunkEvs ++ terminal :: post) e.token
      = Except.ok (ToolCallAggregate.chunks
          (chunkEvs.foldl (fun a ev => addMessage a ev.token)
            (toChunkAcc e.token)).tool_call_chunks, post) := by
    rw [tool_call_aggregate_chunked _ _ hT,
      aggLoop_terminal chunkEvs terminal post (toChunkAcc e.token) hC hterm]
  refine ⟨hagg, ?_⟩
  have hrest2 : (stepP2 last msg e (chunkEvs ++ terminal :: post)).rest
      = chunkEvs ++ terminal :: post := contentActions_rest_eq _ _ _ _ hthink
  have htc : tool_call (chunkEvs ++ terminal :: post) e.token = Except.ok (R, post) := by
    unfold tool_call
    rw [hagg]
    dsimp only
    rw [hR]
  have hp3 : stepP3 last msg e (chunkEvs ++ terminal :: post)
      = ⟨[UIAction.toolCallStep R], post, true⟩ := by
    unfold stepP3 toolActions
    rw [hrest2, if_pos (by rw [isEmpty_false_of_ne_nil hT]; simp), htc]
  rw [relayFrom_cons, hp3]
  simp only [eq_self_iff_true, if_true]

/-- Claim C4: for every finite event sequence whose relay invocation runs to
completion, the trace satisfies the message lifecycle: Display Messages open
and finalize in strict alternation starting closed and ending closed (each
opened message is finalized exactly once, never twice), and every finalize is
either a node-change flush whose new node differs from the node the message
was opened under, or the single stream-end flush. -/
theorem claim4_each_message_finalized_exactly_once (evs : List Event)
    (hok : (stream_agent_response evs).2 = true) :
    msgCheck none (stream_agent_response evs).1 = some none := by
  have h := relayFrom_msgCheck evs.length evs "" none (le_refl _)
    (by intro m hm; simp at hm) hok
  simpa using h

theorem claim4_witness :
    (stream_agent_response
        [⟨⟨"a", [], []⟩, "n1"⟩, ⟨⟨"b", [], []⟩, "n2"⟩]).2 = true
    ∧ msgCheck none (stream_agent_response
        [⟨⟨"a", [], []⟩, "n1"⟩, ⟨⟨"b", [], []⟩, "n2"⟩]).1 = some none :=
  ⟨rfl, claim4_each_message_finalized_exactly_once _ rfl⟩

/-- Claim C5, counterexample: the claim quantifies over all single-node
sequences with at least one non-empty content fragment and asserts exactly
one Display Message is opened.  A one-event sequence on node `"tools"` with
content `"x"` satisfies those hypotheses, yet the relay opens zero Display
Messages: the content goes to a tool-response step (app.py line 147). -/
theorem claim5_counterexample :
    stream_agent_response [⟨⟨"x", [], []⟩, "tools"⟩]
      = ([UIAction.toolRespStep "```\nx\n```"], true)
    ∧ openCount (stream_agent_response [⟨⟨"x", [], []⟩, "tools"⟩]).1 = 0 :=
  ⟨rfl, rfl⟩

/-- Claim C5 as amended: for event sequences in which every event carries the
same node value `n` where `n` does not contain `"tools"` as a substring, no
event's content is the `"<think>"` sentinel, no event carries `tool_calls`
or `tool_call_chunks`, and at least one event has non-empty content — exactly
one Display Message is opened, and its final (finalized) content is exactly
the concatenation, in arrival order, of every event's content fragment. -/
theorem claim5_single_node_single_message (evs : List Event) (n : String)
    (hn : hasSubstr n "tools" = false)
    (h : ∀ e ∈ evs, e.langgraph_node = n ∧ e.token.content ≠ "<think>" ∧
        e.token.tool_calls = [] ∧ e.token.tool_call_chunks = [])
    (hsome : ∃ e ∈ evs, e.token.content ≠ "") :
    openCount (stream_agent_response evs).1 = 1
    ∧ finalizedContents (stream_agent_response evs).1
        = [strJoin (evs.map (fun e => e.token.content))]
    ∧ (stream_agent_response evs).2 = true :=
  relayFrom_closed_sameNode n hn evs "" h hsome

theorem claim5_witness :
    (hasSubstr "agent" "tools" = false
      ∧ (∀ e ∈ ([⟨⟨"hi ", [], []⟩, "agent"⟩, ⟨⟨"there", [], []⟩, "agent"⟩] : List Event),
          e.langgraph_node = "agent" ∧ e.token.content ≠ "<think>" ∧
          e.token.tool_calls = [] ∧ e.token.tool_call_chunks = [])
      ∧ ∃ e ∈ ([⟨⟨"hi ", [], []⟩, "agent"⟩, ⟨⟨"there", [], []⟩, "agent"⟩] : List Event),
          e.token.content ≠ "")
    ∧ (openCount (stream_agent_response
          [⟨⟨"hi ", [], []⟩, "agent"⟩, ⟨⟨"there", [], []⟩, "agent"⟩]).1 = 1
      ∧ finalizedContents (stream_agent_response
          [⟨⟨"hi ", [], []⟩, "agent"⟩, ⟨⟨"there", [], []⟩, "agent"⟩]).1
          = [strJoin (([⟨⟨"hi ", [], []⟩, "agent"⟩, ⟨⟨"there", [], []⟩, "agent"⟩] :
              List Event).map (fun e => e.token.content))]
      ∧ (stream_agent_response
          [⟨⟨"hi ", [], []⟩, "agent"⟩, ⟨⟨"there", [], []⟩, "agent"⟩]).2 = true) :=
  ⟨⟨by decide, by simp, ⟨⟨⟨"hi ", [], []⟩, "agent"⟩, by simp, by simp⟩⟩,
   claim5_single_node_single_message _ "agent" (by decide) (by simp)
     ⟨⟨⟨"hi ", [], []⟩, "agent"⟩, by simp, by simp⟩⟩

/-- Concrete trigger event for the C8 witness: a fully-formed `tool_calls`
token with no chunks. -/
def exC8e : Event := ⟨⟨"", [⟨"f", ArgsVal.ofJson (Json.obj []), some "id1"⟩], []⟩, "agent"⟩

/-- Concrete remainder of the sequence for the C8 witness. -/
def exC8rest : List Event := [⟨⟨"next", [], []⟩, "agent"⟩]

/-- Rendered tool-call step for the C8 witness. -/
def exC8R : List RenderedTool := [⟨some "f", Json.obj []⟩]

theorem claim8_witness :
    (exC8e.token.tool_calls ≠ [] ∧ exC8e.token.tool_call_chunks = []
      ∧ exC8e.token.content ≠ "<think>"
      ∧ renderAggregate (ToolCallAggregate.complete exC8e.token.tool_calls) = some exC8R)
    ∧ (tool_call_aggregate exC8rest exC8e.token
          = Except.ok (ToolCallAggregate.complete exC8e.token.tool_calls, exC8rest)
      ∧ relayFrom "" none (exC8e :: exC8rest) =
          ((stepP1 "" none exC8e).1 ++ (stepP2 "" none exC8e exC8rest).acts
              ++ [UIAction.toolCallStep exC8R]
              ++ (relayFrom exC8e.langgraph_node
                    (stepP2 "" none exC8e exC8rest).msg exC8rest).1,
           (relayFrom exC8e.langgraph_node
              (stepP2 "" none exC8e exC8rest).msg exC8rest).2)) :=
  ⟨⟨by simp [exC8e], rfl, by decide, rfl⟩,
   claim8_complete_toolcalls_consume_nothing exC8e "" none exC8rest exC8R
     (by simp [exC8e]) rfl (by decide) rfl⟩

/-- Concrete trigger event for the C2 witness: a chunked tool-call token. -/
def exC2e : Event := ⟨⟨"", [], [⟨some "f", some "\x7b\x7d", some "id1", some 0⟩]⟩, "agent"⟩

/-- Concrete terminal (non-chunk) event for the C2 witness; its fields are
arbitrary and never surface in the run. -/
def exC2term : Event := ⟨⟨"tail", [], []⟩, "other"⟩

/-- Rendered tool-call step for the C2 witness. -/
def exC2R : List RenderedTool := [⟨some "f", Json.obj []⟩]

theorem claim2_witness :
    (exC2e.token.tool_call_chunks ≠ [] ∧ exC2e.token.content ≠ "<think>"
      ∧ (∀ ev ∈ ([] : List Event), ev.token.tool_call_chunks ≠ [])
      ∧ exC2term.token.tool_call_chunks = []
      ∧ renderAggregate (ToolCallAggregate.chunks
          (([] : List Event).foldl (fun a ev => addMessage a ev.token)
            (toChunkAcc exC2e.token)).tool_call_chunks) = some exC2R)
    ∧ (tool_call_aggregate ([] ++ exC2term :: []) exC2e.token
          = Except.ok (ToolCallAggregate.chunks
              (([] : List Event).foldl (fun a ev => addMessage a ev.token)
                (toChunkAcc exC2e.token)).tool_call_chunks, [])
      ∧ relayFrom "" none (exC2e :: ([] ++ exC2term :: [])) =
          ((stepP1 "" none exC2e).1
              ++ (stepP2 "" none exC2e ([] ++ exC2term :: [])).acts
              ++ [UIAction.toolCallStep exC2R]
              ++ (relayFrom exC2e.langgraph_node
                    (stepP2 "" none exC2e ([] ++ exC2term :: [])).msg []).1,
           (relayFrom exC2e.langgraph_node
              (stepP2 "" none exC2e ([] ++ exC2term :: [])).msg []).2)) :=
  ⟨⟨by simp [exC2e], by decide, by simp, rfl, rfl⟩,
   claim2_terminal_chunk_event_dropped "" none exC2e [] exC2term [] exC2R
     (by simp [exC2e]) (by decide) (by simp) rfl rfl⟩

/-- Claim C1: the end-to-end scenario with nodes
`["agent", "agent", "tools", "agent"]` and contents
`["Hello ", "world", c, "Done"]` (no tool-call fields, no `"<think>"`
sentinel; `c` is any non-empty tool-response content): one Display Message
whose final content is `"Hello world"`, finalized by the node change to
`"tools"`; one tool-response step carrying `c` as a fenced code block; and a
second Display Message `"Done"` finalized at stream end.  The two finalized
contents are exactly what is appended to `message_history`, in order. -/
theorem claim1_end_to_end_scenario (c : String) (hc : c ≠ "") (hthink : c ≠ "<think>") :
    stream_agent_response
        [⟨⟨"Hello ", [], []⟩, "agent"⟩, ⟨⟨"world", [], []⟩, "agent"⟩,
         ⟨⟨c, [], []⟩, "tools"⟩, ⟨⟨"Done", [], []⟩, "agent"⟩]
      = ([UIAction.openMsg "agent", UIAction.streamTok "Hello ", UIAction.streamTok "world",
          UIAction.finalizeMsg "Hello world" (FlushCause.nodeChange "tools"),
          UIAction.toolRespStep ("```\n" ++ c ++ "\n```"),
          UIAction.openMsg "agent", UIAction.streamTok "Done",
          UIAction.finalizeMsg "Done" FlushCause.streamEnd], true)
    ∧ finalizedContents (stream_agent_response
        [⟨⟨"Hello ", [], []⟩, "agent"⟩, ⟨⟨"world", [], []⟩, "agent"⟩,
         ⟨⟨c, [], []⟩, "tools"⟩, ⟨⟨"Done", [], []⟩, "agent"⟩]).1
      = ["Hello world", "Done"] := by
  have h1 : stream_agent_response
      [⟨⟨"Hello ", [], []⟩, "agent"⟩, ⟨⟨"world", [], []⟩, "agent"⟩,
       ⟨⟨c, [], []⟩, "tools"⟩, ⟨⟨"Done", [], []⟩, "agent"⟩]
      = ([UIAction.openMsg "agent", UIAction.streamTok "Hello ", UIAction.streamTok "world",
          UIAction.finalizeMsg "Hello world" (FlushCause.nodeChange "tools"),
          UIAction.toolRespStep ("```\n" ++ c ++ "\n```"),
          UIAction.openMsg "agent", UIAction.streamTok "Done",
          UIAction.finalizeMsg "Done" FlushCause.streamEnd], true) := by
    simp +decide only [stream_agent_response, relayFrom, List.length_cons, List.length_nil,
      relayFuel, nodeChangeStep, contentActions, toolActions, tool_response, thinking,
      finalFlushActs, hc, hthink, if_true, if_false]
    rfl
  refine ⟨h1, ?_⟩
  rw [h1]
  rfl

/-- Claim C7: the content sequence `"<think>"`, `"step one "`, `"step two"`,
`"</think>"`, `"answer"`, all on one non-tools node with no tool-call fields:
exactly one thinking step is opened and it receives exactly the concatenation
`"step one step two"` (the sentinel events contribute no streamed text), and
after the sub-loop a new Display Message receives exactly `"answer"`. -/
theorem claim7_thinking_scenario (n : String) (hn : hasSubstr n "tools" = false) :
    stream_agent_response
        [⟨⟨"<think>", [], []⟩, n⟩, ⟨⟨"step one ", [], []⟩, n⟩,
         ⟨⟨"step two", [], []⟩, n⟩, ⟨⟨"</think>", [], []⟩, n⟩,
         ⟨⟨"answer", [], []⟩, n⟩]
      = ([UIAction.thinkingStep "step one step two",
          UIAction.openMsg n, UIAction.streamTok "answer",
          UIAction.finalizeMsg "answer" FlushCause.streamEnd], true) := by
  simp +decide only [stream_agent_response, relayFrom, List.length_cons, List.length_nil,
    relayFuel, nodeChangeStep_none, contentActions, toolActions, thinking, strJoin,
    finalFlushActs, hn, if_true, if_false]
  rfl

theorem claim7_witness :
    hasSubstr "agent" "tools" = false
    ∧ stream_agent_response
        [⟨⟨"<think>", [], []⟩, "agent"⟩, ⟨⟨"step one ", [], []⟩, "agent"⟩,
         ⟨⟨"step two", [], []⟩, "agent"⟩, ⟨⟨"</think>", [], []⟩, "agent"⟩,
         ⟨⟨"answer", [], []⟩, "agent"⟩]
      = ([UIAction.thinkingStep "step one step two",
          UIAction.openMsg "agent", UIAction.streamTok "answer",
          UIAction.finalizeMsg "answer" FlushCause.streamEnd], true) :=
  ⟨by decide, claim7_thinking_scenario "agent" (by decide)⟩

theorem claim1_witness :
    (("tool output" : String) ≠ "" ∧ ("tool output" : String) ≠ "<think>")
    ∧ (stream_agent_response
          [⟨⟨"Hello ", [], []⟩, "agent"⟩, ⟨⟨"world", [], []⟩, "agent"⟩,
           ⟨⟨"tool output", [], []⟩, "tools"⟩, ⟨⟨"Done", [], []⟩, "agent"⟩]
        = ([UIAction.openMsg "agent", UIAction.streamTok "Hello ", UIAction.streamTok "world",
            UIAction.finalizeMsg "Hello world" (FlushCause.nodeChange "tools"),
            UIAction.toolRespStep ("```\n" ++ "tool output" ++ "\n```"),
            UIAction.openMsg "agent", UIAction.streamTok "Done",
            UIAction.finalizeMsg "Done" FlushCause.streamEnd], true)
      ∧ finalizedContents (stream_agent_response
          [⟨⟨"Hello ", [], []⟩, "agent"⟩, ⟨⟨"world", [], []⟩, "agent"⟩,
           ⟨⟨"tool output", [], []⟩, "tools"⟩, ⟨⟨"Done", [], []⟩, "agent"⟩]).1
        = ["Hello world", "Done"]) :=
  ⟨⟨by decide, by decide⟩,
   claim1_end_to_end_scenario "tool output" (by decide) (by decide)⟩

end AgentRelay
